import Mathlib

/-
Verification of the Ark disk-image assembly scripts.

The disk pipeline (`scripts/create_disk_with_init.py`, `create_fat32_disk`)
is embedded as a function from an environment of external-command outcomes to
the trace of external actions it performs together with its returned value.
Every external invocation (`parted`, `losetup`, `mkfs`, `mount`, `umount`,
file copies, directory creation) is recorded as an `Event`; the environment
decides each invocation's success, the loop-device names returned by
`losetup`, which files exist, and whether a staging step raises an exception.

The archive builder (`scripts/create_initramfs_zip.py`, `main`) is embedded
as a function from a host filesystem (a map from file names to contents) and
the argument list to the ordered list of archive members written.
-/

set_option autoImplicit false

namespace Ark

/-- One observable external action of the disk pipeline, in invocation
order. String payloads are the device node or path the action targets. -/
inductive Event where
  | allocate (sizeMB : Nat)
  | partedMklabel
  | warnMklabel
  | partedMkpart
  | warnMkpart
  | partedSetBoot
  | losetupShow
  | losetupFree
  | warnNoLoop
  | mkfsFat (dev : String)
  | mkfsVfat (dev : String)
  | mountDev (dev : String)
  | warnMountFailed
  | mkdir (path : String)
  | copyFile (src dst : String)
  | warnMissing (path : String)
  | writeFile (path : String)
  | walkTree
  | umountDev (dev : String)
  | losetupDetach (dev : String)
  deriving DecidableEq

/-- The staging steps executed inside the mounted volume (lines 100-151 of
`create_disk_with_init.py`), used to name which step raises an exception. -/
inductive StagingStep where
  | mkdirBin
  | mkdirUsr
  | copyInit
  | copyKernel
  | mkdirGrub
  | writeCfg
  | walkStep
  deriving DecidableEq

/-- Outcomes of the external commands and filesystem queries the pipeline
makes, fixed for one run. `stagingExc` names the staging step that raises an
exception when executed (`none` for a run with no staging exception).
`umountOk` records whether `umount` would succeed; the code discards the
return value of `umount` (line 156), so the pipeline never reads it. -/
structure Env where
  mklabelOk : Bool
  mkpartOk : Bool
  losetupShowOk : Bool
  losetupShowOut : String
  losetupFreeOk : Bool
  losetupFreeOut : String
  p1Exists : Bool
  mkfsFatOk : Bool
  mkfsVfatOk : Bool
  mountOk : Bool
  umountOk : Bool
  initExists : Bool
  kernelExists : Bool
  stagingExc : Option StagingStep

/-- The loop-device name obtained at lines 61-71: the output of
`losetup -f --show` when it succeeds, otherwise the output of the fallback
`losetup -f` query when that succeeds, otherwise nothing. -/
def resolvedLoop (env : Env) : Option String :=
  if env.losetupShowOk then some env.losetupShowOut
  else if env.losetupFreeOk then some env.losetupFreeOut
  else none

/-- Python truthiness test `if not loopdev` (line 73): both `None` and the
empty string are falsy. -/
def loopFalsy : Option String → Bool
  | none => true
  | some s => s == ""

/-- Partition-device resolution (lines 80-83): use `loopdev + "p1"` when
that path exists, else fall back to the whole loop handle. -/
def partitionDev (env : Env) (dev : String) : String :=
  if env.p1Exists then dev ++ "p1" else dev

/-- Actions performed before the loop-device test (lines 33-71): image
allocation, the three `parted` invocations (each failure only logged; the
`set 1 boot on` return value is not even tested), and the `losetup` calls. -/
def preTrace (env : Env) (sizeMB : Nat) : List Event :=
  [Event.allocate sizeMB, Event.partedMklabel]
    ++ (if env.mklabelOk then [] else [Event.warnMklabel])
    ++ [Event.partedMkpart]
    ++ (if env.mkpartOk then [] else [Event.warnMkpart])
    ++ [Event.partedSetBoot, Event.losetupShow]
    ++ (if env.losetupShowOk then [] else [Event.losetupFree])

/-- The staging steps in source order (lines 100-151), each tagged with the
step name used for exception injection and the action it performs. A missing
init binary produces a warning instead of a copy (lines 110-111); a missing
kernel is silently skipped (line 114 has no else branch). Warning prints
cannot raise, so they carry no tag. -/
def stagingPlan (env : Env) (kernelPath initBinPath : String) :
    List (Option StagingStep × Event) :=
  [(some StagingStep.mkdirBin, Event.mkdir "bin"),
   (some StagingStep.mkdirUsr, Event.mkdir "usr")]
    ++ (if env.initExists
        then [(some StagingStep.copyInit, Event.copyFile initBinPath "bin/init.bin")]
        else [(none, Event.warnMissing initBinPath)])
    ++ (if env.kernelExists
        then [(some StagingStep.copyKernel, Event.copyFile kernelPath "bzImage")]
        else [])
    ++ [(some StagingStep.mkdirGrub, Event.mkdir "boot/grub"),
        (some StagingStep.writeCfg, Event.writeFile "boot/grub/grub.cfg"),
        (some StagingStep.walkStep, Event.walkTree)]

/-- Whether a staging step raises: it does exactly when the injected
exception names this step's tag. -/
def raises (tag exc : Option StagingStep) : Bool :=
  match tag, exc with
  | some s, some t => decide (s = t)
  | _, _ => false

/-- Run the staging steps in order. A step whose tag matches the injected
exception is invoked and then raises: its action is recorded, the remaining
steps are skipped, and the flag reports that an exception is propagating. -/
def runStaging : List (Option StagingStep × Event) → Option StagingStep → List Event × Bool
  | [], _ => ([], false)
  | (tag, e) :: rest, exc =>
    if raises tag exc then ([e], true)
    else
      let r := runStaging rest exc
      (e :: r.1, r.2)

/-- Shallow embedding of `create_fat32_disk` (lines 28-164). The result is
the trace of external actions paired with the outcome: `some b` when the
function returns `b`, and `none` when a staging exception propagates out of
the function — the `try` at lines 99-153 has only a `finally` that runs
`umount`, and `losetup -d` (line 162) together with `return True` (line 164)
sit after the `with` block, outside any `finally`, so an exception skips
them both. On a falsy loop device the function returns `False` (line 75);
on a mount failure it logs, skips staging, detaches and still returns
`True` (lines 157-164). -/
def createFat32Disk (env : Env) (sizeMB : Nat) (kernelPath initBinPath : String) :
    List Event × Option Bool :=
  let t1 := preTrace env sizeMB
  match resolvedLoop env with
  | none => (t1 ++ [Event.warnNoLoop], some false)
  | some dev =>
    if dev == "" then (t1 ++ [Event.warnNoLoop], some false)
    else
      let pdev := partitionDev env dev
      let t2 := t1 ++ [Event.mkfsFat pdev]
        ++ (if env.mkfsFatOk then [] else [Event.mkfsVfat pdev])
        ++ [Event.mountDev pdev]
      if env.mountOk then
        let r := runStaging (stagingPlan env kernelPath initBinPath) env.stagingExc
        let t3 := t2 ++ r.1 ++ [Event.umountDev pdev]
        if r.2 then (t3, none)
        else (t3 ++ [Event.losetupDetach dev], some true)
      else
        (t2 ++ [Event.warnMountFailed, Event.losetupDetach dev], some true)

/-- Outcome of `main` (lines 187-197) as a function of the pipeline result:
exit code 0 together with the printed success summary exactly when
`create_fat32_disk` returns `True`, exit code 1 when it returns `False`,
and an uncaught exception (no exit code reached) when the pipeline raises. -/
def mainExitCode : Option Bool → Option Nat
  | some true => some 0
  | some false => some 1
  | none => none

/-- Recognise a `losetup -d` invocation. -/
def isDetach : Event → Bool
  | Event.losetupDetach _ => true
  | _ => false

/-- Recognise an `umount` invocation. -/
def isUnmountEv : Event → Bool
  | Event.umountDev _ => true
  | _ => false

/-- Recognise a `mount` invocation. -/
def isMountEv : Event → Bool
  | Event.mountDev _ => true
  | _ => false

/-- Recognise a `mkfs.fat` invocation. -/
def isMkfsFatEv : Event → Bool
  | Event.mkfsFat _ => true
  | _ => false

/-- Recognise a `mkfs.vfat` invocation. -/
def isMkfsVfatEv : Event → Bool
  | Event.mkfsVfat _ => true
  | _ => false

/-- Recognise a file copy into the mounted volume. -/
def isCopyEv : Event → Bool
  | Event.copyFile _ _ => true
  | _ => false

/-- Recognise the boot-configuration write. -/
def isWriteCfgEv : Event → Bool
  | Event.writeFile _ => true
  | _ => false

/-- Recognise the creation of a specific directory. -/
def isMkdirOf (p : String) : Event → Bool
  | Event.mkdir q => q == p
  | _ => false

/-- Number of events of a trace satisfying a predicate. -/
def countE (p : Event → Bool) (tr : List Event) : Nat :=
  (tr.filter p).length

/-- The device a formatting or mount invocation targets, if the event is
one of `mkfs.fat`, `mkfs.vfat` or `mount`. -/
def fmTarget : Event → Option String
  | Event.mkfsFat d => some d
  | Event.mkfsVfat d => some d
  | Event.mountDev d => some d
  | _ => none

/-- The devices targeted by the formatting and mount invocations of a
trace, in order. -/
def fmTargets (tr : List Event) : List String :=
  tr.filterMap fmTarget

/-- Python bytes repetition: the value of `b'\x00' * n` as a list of byte
values, built one byte at a time. -/
def repeatByte (b : Nat) : Nat → List Nat
  | 0 => []
  | n + 1 => b :: repeatByte b n

/-- Image allocation (lines 33-40): any pre-existing file is removed and
the file is rewritten from scratch as `size_mb * 1024 * 1024` zero bytes,
so the result ignores the previous contents. -/
def allocateImage (sizeMB : Nat) (_prev : Option (List Nat)) : List Nat :=
  repeatByte 0 (sizeMB * 1024 * 1024)

/-- Recognise the actions performed before the loop-device test: allocation,
partitioning and the `losetup` queries. -/
def isPreEv : Event → Bool
  | Event.allocate _ => true
  | Event.partedMklabel => true
  | Event.warnMklabel => true
  | Event.partedMkpart => true
  | Event.warnMkpart => true
  | Event.partedSetBoot => true
  | Event.losetupShow => true
  | Event.losetupFree => true
  | _ => false

/-- Recognise the actions a staging step can perform inside the mounted
volume: directory creation, file copy, missing-file warning, config write,
tree listing. -/
def isStageEv : Event → Bool
  | Event.mkdir _ => true
  | Event.copyFile _ _ => true
  | Event.warnMissing _ => true
  | Event.writeFile _ => true
  | Event.walkTree => true
  | _ => false

/-- Recognise a formatting or mount invocation. -/
def isFormatOrMount (e : Event) : Bool :=
  isMkfsFatEv e || isMkfsVfatEv e || isMountEv e

/-- All three canonical directories are created before any file copy: each
of `bin`, `usr` and `boot/grub` is made somewhere in the portion of the
trace that precedes the first copy. -/
def dirsBeforeCopies (tr : List Event) : Bool :=
  ((tr.takeWhile (fun e => !(isCopyEv e))).any (isMkdirOf "bin"))
    && ((tr.takeWhile (fun e => !(isCopyEv e))).any (isMkdirOf "usr"))
    && ((tr.takeWhile (fun e => !(isCopyEv e))).any (isMkdirOf "boot/grub"))

/-- The `bin` and `usr` directories are created before any file copy. -/
def binUsrBeforeCopies (tr : List Event) : Bool :=
  ((tr.takeWhile (fun e => !(isCopyEv e))).any (isMkdirOf "bin"))
    && ((tr.takeWhile (fun e => !(isCopyEv e))).any (isMkdirOf "usr"))

/-- The `boot/grub` directory is created before the boot configuration is
written. -/
def grubBeforeCfg (tr : List Event) : Bool :=
  (tr.takeWhile (fun e => !(isWriteCfgEv e))).any (isMkdirOf "boot/grub")

/-- A run in which every external capability behaves: both `losetup` forms
succeed, the partition sub-device node exists, formatting, mount and umount
succeed, both artifact files exist, and no staging step raises. -/
def envBase : Env :=
  { mklabelOk := true
    mkpartOk := true
    losetupShowOk := true
    losetupShowOut := "/dev/loop0"
    losetupFreeOk := true
    losetupFreeOut := "/dev/loop1"
    p1Exists := true
    mkfsFatOk := true
    mkfsVfatOk := true
    mountOk := true
    umountOk := true
    initExists := true
    kernelExists := true
    stagingExc := none }

/-- A run in which everything behaves except that the kernel-copy staging
step raises an exception after the successful mount. -/
def envStagingRaises : Env :=
  { envBase with stagingExc := some StagingStep.copyKernel }

/-- A run in which everything behaves except that the `umount` invocation
fails. -/
def envUmountFails : Env :=
  { envBase with umountOk := false }

/-- A run in which everything behaves but the partition sub-device node
`loopdev + "p1"` was not auto-created. -/
def envNoP1 : Env :=
  { envBase with p1Exists := false }

end Ark

namespace ArkZip

/-- File and archive-member names, as the character sequences Python
string operations work on. -/
abbrev Name := List Char

/-- Python `s.split(':', 1)` restricted to success: the parts before and
after the first colon, or `none` when the string has no colon (the
`':' in extra` test, line 41). -/
def splitColon1 : Name → Option (Name × Name)
  | [] => none
  | c :: cs =>
    if c = ':' then some ([], cs)
    else (splitColon1 cs).map (fun r => (c :: r.1, r.2))

/-- Python `os.path.basename`: the characters after the last slash. -/
def basename (s : Name) : Name :=
  s.foldl (fun acc c => if c = '/' then [] else acc ++ [c]) []

/-- Whether the string contains a colon. -/
def hasColon (s : Name) : Bool :=
  s.any (fun c => c == ':')

/-- Resolution of one extra argument (lines 41-45): split at the first
colon into host path and archive path; with no colon the host path is the
whole argument and the archive path defaults to its base name. -/
def resolveExtra (e : Name) : Name × Name :=
  match splitColon1 e with
  | some r => r
  | none => (e, basename e)

/-- An archive member: name paired with the stored byte contents. -/
abbrev Member := Name × List Nat

/-- Python `s.split('/')`: the separator-delimited components of a path,
empty components included. -/
def splitSep : Name → List Name
  | [] => [[]]
  | c :: cs =>
    if c = '/' then [] :: splitSep cs
    else
      match splitSep cs with
      | [] => [[c]]
      | x :: t => (c :: x) :: t

/-- The path component `.`. -/
def dotName : Name := ['.']

/-- The path component `..`. -/
def dotdotName : Name := ['.', '.']

/-- The component loop of posix `os.path.normpath`: drop empty and `.`
components; on `..` pop the previous component, keep a leading `..` chain
on a relative path, and drop `..` at the root of an absolute path. The
accumulator is kept reversed and flipped at the end. -/
def normComps (isAbs : Bool) : List Name → List Name → List Name
  | acc, [] => acc.reverse
  | acc, comp :: rest =>
    if comp = [] ∨ comp = dotName then normComps isAbs acc rest
    else if comp = dotdotName then
      match acc with
      | [] => if isAbs then normComps isAbs [] rest else normComps isAbs [dotdotName] rest
      | prev :: accTail =>
        if prev = dotdotName then normComps isAbs (dotdotName :: prev :: accTail) rest
        else normComps isAbs accTail rest
    else normComps isAbs (comp :: acc) rest

/-- Whether the path starts with the separator. -/
def isAbsName : Name → Bool
  | c :: _ => c == '/'
  | [] => false

/-- Join path components with the separator. -/
def intercalateSlash : List Name → Name
  | [] => []
  | [x] => x
  | x :: xs => x ++ '/' :: intercalateSlash xs

/-- The archive-name normalization `zf.write` performs via
`ZipInfo.from_file`: `os.path.normpath` followed by stripping every
leading separator. With surviving components the stored name is their
separator-joined form; a relative path with no surviving components is
stored as `.`; an absolute path with no surviving components leaves only
separators, and the stripping loop then indexes an empty string — the
write raises IndexError (`none`). -/
def normalizeArc (s : Name) : Option Name :=
  match normComps (isAbsName s) [] (splitSep s) with
  | [] => if isAbsName s then none else some dotName
  | c :: t => some (intercalateSlash (c :: t))

/-- `zf.write`: the archive name is normalized, then the entry is appended
— the zip format keeps every written entry, including a duplicate of an
existing name. `none` is the IndexError raised on a name that normalizes
to separators only. -/
def zipWrite (z : List Member) (name : Name) (content : List Nat) : Option (List Member) :=
  match normalizeArc name with
  | none => none
  | some nm => some (z ++ [(nm, content)])

/-- The loop over extra arguments (lines 40-50), threading the archive
state: an extra whose host file exists is written under its resolved,
normalized archive path, a missing host file is skipped with a warning. A
raising write stops the loop; the flag records that the program crashed —
closing the file still flushes the members written so far. -/
def writeExtrasLoop (fs : Name → Option (List Nat)) :
    List Member → List Name → List Member × Bool
  | z, [] => (z, false)
  | z, e :: rest =>
    match fs (resolveExtra e).1 with
    | some c =>
      match zipWrite z (resolveExtra e).2 c with
      | none => (z, true)
      | some z2 => writeExtrasLoop fs z2 rest
    | none => writeExtrasLoop fs z rest

/-- The member name `init`. -/
def initName : Name := ['i', 'n', 'i', 't']

/-- Shallow embedding of the archive build (`create_initramfs_zip.py`,
lines 31-50): `none` when the init binary is missing (`sys.exit(1)`,
lines 31-33); otherwise the archive members on disk paired with the
crash flag, the first write being the init binary under the name `init`
(line 37) followed by the extras loop. `fs` maps a file name to its
contents when `os.path.isfile` holds. -/
def buildZip (fs : Name → Option (List Nat)) (initBin : Name) (extras : List Name) :
    Option (List Member × Bool) :=
  match fs initBin with
  | none => none
  | some c =>
    match zipWrite [] initName c with
    | none => none
    | some z0 => some (writeExtrasLoop fs z0 extras)

/-- Declarative description of what the extras loop appends: the extras in
argument order, each resolved to its normalized archive path and its
contents, missing host files dropped, truncated at the first write whose
name normalizes to separators only (the crash, recorded in the flag). -/
def resolvedExtras (fs : Name → Option (List Nat)) : List Name → List Member × Bool
  | [] => ([], false)
  | e :: rest =>
    match fs (resolveExtra e).1 with
    | none => resolvedExtras fs rest
    | some c =>
      match normalizeArc (resolveExtra e).2 with
      | none => ([], true)
      | some nm =>
        let r := resolvedExtras fs rest
        ((nm, c) :: r.1, r.2)

/-- Number of members of an archive bearing a given name. -/
def countName (n : Name) (z : List Member) : Nat :=
  (z.filter (fun p => p.1 == n)).length

/-- A small concrete host filesystem used to evaluate the archive builder:
`i` is the init binary, `x` a one-byte file, `d/x` a file inside a
directory, `y` another file. -/
def fsDemo : Name → Option (List Nat) :=
  fun s =>
    if s = ['i'] then some [1, 2]
    else if s = ['x'] then some [7]
    else if s = ['d', '/', 'x'] then some [4, 5]
    else if s = ['y'] then some [6]
    else none

end ArkZip

namespace Ark

lemma filter_eq_nil_of_all {α : Type} (p : α → Bool) :
    ∀ tr : List α, (∀ e ∈ tr, p e = false) → tr.filter p = []
  | [], _ => rfl
  | a :: l, h => by
    have ha := h a (List.mem_cons_self a l)
    have hl : ∀ e ∈ l, p e = false := fun e he => h e (List.mem_cons_of_mem a he)
    simp [List.filter_cons, ha, filter_eq_nil_of_all p l hl]

lemma countE_append (p : Event → Bool) (l₁ l₂ : List Event) :
    countE p (l₁ ++ l₂) = countE p l₁ + countE p l₂ := by
  simp [countE, List.filter_append]

lemma countE_eq_zero (p : Event → Bool) (tr : List Event)
    (h : ∀ e ∈ tr, p e = false) : countE p tr = 0 := by
  simp [countE, filter_eq_nil_of_all p tr h]

lemma fmTargets_append (l₁ l₂ : List Event) :
    fmTargets (l₁ ++ l₂) = fmTargets l₁ ++ fmTargets l₂ := by
  simp [fmTargets, List.filterMap_append]

lemma fmTargets_eq_nil :
    ∀ tr : List Event, (∀ e ∈ tr, fmTarget e = none) → fmTargets tr = []
  | [], _ => rfl
  | a :: l, h => by
    have ha := h a (List.mem_cons_self a l)
    have hl : ∀ e ∈ l, fmTarget e = none := fun e he => h e (List.mem_cons_of_mem a he)
    have ih := fmTargets_eq_nil l hl
    simp [fmTargets, List.filterMap_cons, ha] at ih ⊢
    exact ih

lemma takeWhile_append_all (p : Event → Bool) :
    ∀ (l₁ l₂ : List Event), (∀ e ∈ l₁, p e = true) →
      (l₁ ++ l₂).takeWhile p = l₁ ++ l₂.takeWhile p
  | [], _, _ => by simp
  | a :: l, l₂, h => by
    have ha := h a (List.mem_cons_self a l)
    have hl : ∀ e ∈ l, p e = true := fun e he => h e (List.mem_cons_of_mem a he)
    simp [List.takeWhile_cons, ha, takeWhile_append_all p l l₂ hl]

lemma isPreEv_neutral (e : Event) (h : isPreEv e = true) :
    fmTarget e = none ∧ isDetach e = false ∧ isUnmountEv e = false ∧ isCopyEv e = false ∧
      isWriteCfgEv e = false ∧ isFormatOrMount e = false ∧ ∀ p, isMkdirOf p e = false := by
  cases e <;>
    simp_all [isPreEv, fmTarget, isDetach, isUnmountEv, isCopyEv, isWriteCfgEv,
      isFormatOrMount, isMkfsFatEv, isMkfsVfatEv, isMountEv, isMkdirOf]

lemma isStageEv_neutral (e : Event) (h : isStageEv e = true) :
    fmTarget e = none ∧ isDetach e = false ∧ isUnmountEv e = false ∧
      isFormatOrMount e = false := by
  cases e <;>
    simp_all [isStageEv, fmTarget, isDetach, isUnmountEv,
      isFormatOrMount, isMkfsFatEv, isMkfsVfatEv, isMountEv]

lemma preTrace_all_pre (env : Env) (n : Nat) :
    ∀ e ∈ preTrace env n, isPreEv e = true := by
  have : (preTrace env n).all isPreEv = true := by
    rcases env with ⟨ml, mp, lso, _, _, _, _, _, _, _, _, _, _, _⟩
    cases ml <;> cases mp <;> cases lso <;> rfl
  exact fun e he => List.all_eq_true.mp this e he

lemma stagingPlan_all_stage (env : Env) (kp ip : String) :
    ∀ e ∈ (stagingPlan env kp ip).map Prod.snd, isStageEv e = true := by
  have : ((stagingPlan env kp ip).map Prod.snd).all isStageEv = true := by
    rcases env with ⟨_, _, _, _, _, _, _, _, _, _, _, ie, ke, _⟩
    cases ie <;> cases ke <;> rfl
  exact fun e he => List.all_eq_true.mp this e he

lemma runStaging_sub :
    ∀ (plan : List (Option StagingStep × Event)) (exc : Option StagingStep),
      ∀ e ∈ (runStaging plan exc).1, e ∈ plan.map Prod.snd
  | [], _ => by intro e he; simp [runStaging] at he
  | (tag, ev) :: rest, exc => by
    intro e he
    cases hr : raises tag exc with
    | true =>
      simp [runStaging, hr] at he
      simp [he]
    | false =>
      simp [runStaging, hr] at he
      rcases he with rfl | he
      · simp
      · simpa using Or.inr (runStaging_sub rest exc e he)

lemma runStaging_stage (env : Env) (kp ip : String) (exc : Option StagingStep) :
    ∀ e ∈ (runStaging (stagingPlan env kp ip) exc).1, isStageEv e = true :=
  fun e he => stagingPlan_all_stage env kp ip e (runStaging_sub _ exc e he)

lemma runStaging_none_eq : ∀ plan : List (Option StagingStep × Event),
    runStaging plan none = (plan.map Prod.snd, false)
  | [] => rfl
  | (tag, ev) :: rest => by
    have h : raises tag none = false := by cases tag <;> rfl
    simp [runStaging, h, runStaging_none_eq rest]

lemma createFat32Disk_mounted (env : Env) (n : Nat) (kp ip dev : String)
    (h1 : resolvedLoop env = some dev) (hne : (dev == "") = false)
    (hm : env.mountOk = true) :
    createFat32Disk env n kp ip =
      (preTrace env n ++ [Event.mkfsFat (partitionDev env dev)]
        ++ (if env.mkfsFatOk then [] else [Event.mkfsVfat (partitionDev env dev)])
        ++ [Event.mountDev (partitionDev env dev)]
        ++ (runStaging (stagingPlan env kp ip) env.stagingExc).1
        ++ [Event.umountDev (partitionDev env dev)]
        ++ (if (runStaging (stagingPlan env kp ip) env.stagingExc).2 then []
            else [Event.losetupDetach dev]),
       if (runStaging (stagingPlan env kp ip) env.stagingExc).2 then none
       else some true) := by
  unfold createFat32Disk
  rw [h1]
  cases hr : (runStaging (stagingPlan env kp ip) env.stagingExc).2 <;>
    simp [hne, hm, hr]

lemma createFat32Disk_mountFailed (env : Env) (n : Nat) (kp ip dev : String)
    (h1 : resolvedLoop env = some dev) (hne : (dev == "") = false)
    (hm : env.mountOk = false) :
    createFat32Disk env n kp ip =
      (preTrace env n ++ [Event.mkfsFat (partitionDev env dev)]
        ++ (if env.mkfsFatOk then [] else [Event.mkfsVfat (partitionDev env dev)])
        ++ [Event.mountDev (partitionDev env dev)]
        ++ [Event.warnMountFailed, Event.losetupDetach dev],
       some true) := by
  unfold createFat32Disk
  rw [h1]
  simp [hne, hm]

lemma createFat32Disk_falsy (env : Env) (n : Nat) (kp ip : String)
    (h : loopFalsy (resolvedLoop env) = true) :
    createFat32Disk env n kp ip = (preTrace env n ++ [Event.warnNoLoop], some false) := by
  unfold createFat32Disk
  rcases hr : resolvedLoop env with _ | dev
  · simp
  · have hdev : (dev == "") = true := by
      rw [hr] at h
      simpa [loopFalsy] using h
    simp [hdev]

end Ark

namespace Ark

lemma repeatByte_length (b : Nat) : ∀ n, (repeatByte b n).length = n
  | 0 => rfl
  | n + 1 => by simp [repeatByte, repeatByte_length b n]

lemma repeatByte_eq (b : Nat) : ∀ n, ∀ x ∈ repeatByte b n, x = b
  | 0 => by intro x hx; simp [repeatByte] at hx
  | n + 1 => by
    intro x hx
    rw [repeatByte] at hx
    rcases List.mem_cons.mp hx with rfl | h
    · rfl
    · exact repeatByte_eq b n x h

/-- C4: for every `size_mb > 0` the allocated backing file is exactly
`size_mb * 1024 * 1024` bytes long, every byte is zero, and the result does
not depend on any pre-existing file at the output path. -/
theorem allocator_size_and_zero_fill (sizeMB : Nat) (prev : Option (List Nat))
    (h : 0 < sizeMB) :
    (allocateImage sizeMB prev).length = sizeMB * 1024 * 1024 ∧
    (∀ x ∈ allocateImage sizeMB prev, x = 0) ∧
    allocateImage sizeMB prev = allocateImage sizeMB none :=
  ⟨repeatByte_length 0 _, fun x hx => repeatByte_eq 0 _ x hx, rfl⟩

theorem allocator_size_and_zero_fill_witness :
    0 < 2 ∧
    ((allocateImage 2 (some [5, 6])).length = 2 * 1024 * 1024 ∧
      (∀ x ∈ allocateImage 2 (some [5, 6]), x = 0) ∧
      allocateImage 2 (some [5, 6]) = allocateImage 2 none) :=
  ⟨by decide, allocator_size_and_zero_fill 2 (some [5, 6]) (by decide)⟩

/-- C1: refuted on the code. On a run where the loop attach succeeds, the
mount succeeds and the kernel-copy staging step raises an exception, the
`finally` block still unmounts, but `losetup -d` is never invoked — it sits
after the mount block, outside any `finally` — so the detach count is 0,
not 1, and the exception propagates out of `create_fat32_disk`. -/
theorem detach_skipped_when_staging_raises :
    envStagingRaises.losetupShowOk = true ∧ envStagingRaises.mountOk = true ∧
    (createFat32Disk envStagingRaises 64 "bzImage" "init.bin").2 = none ∧
    countE isDetach (createFat32Disk envStagingRaises 64 "bzImage" "init.bin").1 = 0 ∧
    countE isUnmountEv (createFat32Disk envStagingRaises 64 "bzImage" "init.bin").1 = 1 := by
  decide

/-- C3: counterexample. On a run where everything succeeds except the
`umount` invocation, `create_fat32_disk` still returns `True` and `main`
exits 0 with the success summary: the unmount failure is not escalated as a
run-level failure. -/
theorem unmount_failure_reports_success :
    envUmountFails.mountOk = true ∧ envUmountFails.umountOk = false ∧
    countE isUnmountEv (createFat32Disk envUmountFails 64 "bzImage" "init.bin").1 = 1 ∧
    (createFat32Disk envUmountFails 64 "bzImage" "init.bin").2 = some true ∧
    mainExitCode (createFat32Disk envUmountFails 64 "bzImage" "init.bin").2 = some 0 := by
  decide

/-- C7: counterexample. On a fully successful run with both artifacts
present, file copies do happen, yet the three canonical directories are not
all created before the first copy: `boot/grub` is only created after the
init and kernel copies. -/
theorem grub_dir_created_after_copies :
    (createFat32Disk envBase 64 "bzImage" "init.bin").2 = some true ∧
    countE isCopyEv (createFat32Disk envBase 64 "bzImage" "init.bin").1 = 2 ∧
    dirsBeforeCopies (createFat32Disk envBase 64 "bzImage" "init.bin").1 = false := by
  decide

end Ark

namespace Ark

/-- C2: after a successful attach, when the suffixed sub-device path does
not exist the resolved target is the whole loop handle, and every
formatting and mount invocation of the run targets exactly that handle. -/
theorem fallback_targets_whole_handle (env : Env) (n : Nat) (kp ip dev : String)
    (hatt : env.losetupShowOk = true) (hout : env.losetupShowOut = dev)
    (hne : (dev == "") = false) (hp1 : env.p1Exists = false) :
    partitionDev env dev = dev ∧
    ∀ d ∈ fmTargets (createFat32Disk env n kp ip).1, d = dev := by
  have h1 : resolvedLoop env = some dev := by simp [resolvedLoop, hatt, hout]
  have hpd : partitionDev env dev = dev := by simp [partitionDev, hp1]
  refine ⟨hpd, ?_⟩
  have hpre : ∀ e ∈ preTrace env n, fmTarget e = none ∨ fmTarget e = some dev :=
    fun e he => Or.inl (isPreEv_neutral e (preTrace_all_pre env n e he)).1
  have hstage :
      ∀ e ∈ (runStaging (stagingPlan env kp ip) env.stagingExc).1,
        fmTarget e = none ∨ fmTarget e = some dev :=
    fun e he => Or.inl (isStageEv_neutral e (runStaging_stage env kp ip _ e he)).1
  have key : ∀ L : List Event,
      (∀ e ∈ L, fmTarget e = none ∨ fmTarget e = some dev) →
        ∀ d ∈ fmTargets L, d = dev := by
    intro L hL d hd
    simp only [fmTargets] at hd
    rcases List.mem_filterMap.mp hd with ⟨a, ha, hfa⟩
    rcases hL a ha with h0 | h0
    · rw [h0] at hfa; cases hfa
    · rw [h0] at hfa; exact (Option.some_inj.mp hfa).symm
  have happ : ∀ {l₁ l₂ : List Event},
      (∀ e ∈ l₁, fmTarget e = none ∨ fmTarget e = some dev) →
      (∀ e ∈ l₂, fmTarget e = none ∨ fmTarget e = some dev) →
      ∀ e ∈ l₁ ++ l₂, fmTarget e = none ∨ fmTarget e = some dev :=
    fun h₁ h₂ e he => (List.mem_append.mp he).elim (h₁ e) (h₂ e)
  have hfat : ∀ e ∈ [Event.mkfsFat (partitionDev env dev)],
      fmTarget e = none ∨ fmTarget e = some dev := by
    intro e he
    rcases List.mem_singleton.mp he with rfl
    exact Or.inr (by simp [fmTarget, hpd])
  have hvf : ∀ e ∈ (if env.mkfsFatOk then []
        else [Event.mkfsVfat (partitionDev env dev)]),
      fmTarget e = none ∨ fmTarget e = some dev := by
    intro e he
    cases hf : env.mkfsFatOk <;> rw [hf] at he
    · rcases List.mem_singleton.mp he with rfl
      exact Or.inr (by simp [fmTarget, hpd])
    · simp at he
  have hmnt : ∀ e ∈ [Event.mountDev (partitionDev env dev)],
      fmTarget e = none ∨ fmTarget e = some dev := by
    intro e he
    rcases List.mem_singleton.mp he with rfl
    exact Or.inr (by simp [fmTarget, hpd])
  have hum : ∀ e ∈ [Event.umountDev (partitionDev env dev)],
      fmTarget e = none ∨ fmTarget e = some dev := by
    intro e he
    rcases List.mem_singleton.mp he with rfl
    exact Or.inl rfl
  have hwd : ∀ e ∈ [Event.warnMountFailed, Event.losetupDetach dev],
      fmTarget e = none ∨ fmTarget e = some dev := by
    intro e he
    rcases List.mem_cons.mp he with rfl | he2
    · exact Or.inl rfl
    · rcases List.mem_singleton.mp he2 with rfl
      exact Or.inl rfl
  have hdet : ∀ e ∈ (if (runStaging (stagingPlan env kp ip) env.stagingExc).2 then []
        else [Event.losetupDetach dev]),
      fmTarget e = none ∨ fmTarget e = some dev := by
    intro e he
    cases hr2 : (runStaging (stagingPlan env kp ip) env.stagingExc).2 <;> rw [hr2] at he
    · rcases List.mem_singleton.mp he with rfl
      exact Or.inl rfl
    · simp at he
  cases hm : env.mountOk
  · rw [createFat32Disk_mountFailed env n kp ip dev h1 hne hm]
    exact key _ (happ (happ (happ (happ hpre hfat) hvf) hmnt) hwd)
  · rw [createFat32Disk_mounted env n kp ip dev h1 hne hm]
    exact key _ (happ (happ (happ (happ (happ (happ hpre hfat) hvf) hmnt) hstage) hum) hdet)

theorem fallback_targets_whole_handle_witness :
    envNoP1.losetupShowOk = true ∧ envNoP1.losetupShowOut = "/dev/loop0" ∧
    (("/dev/loop0" : String) == "") = false ∧ envNoP1.p1Exists = false ∧
    (partitionDev envNoP1 "/dev/loop0" = "/dev/loop0" ∧
      ∀ d ∈ fmTargets (createFat32Disk envNoP1 64 "bzImage" "init.bin").1,
        d = "/dev/loop0") :=
  ⟨rfl, rfl, rfl, rfl,
    fallback_targets_whole_handle envNoP1 64 "bzImage" "init.bin" "/dev/loop0"
      rfl rfl rfl rfl⟩

/-- C5: whenever a loop device is obtained, the formatting and mount
invocations of the run are exactly: one `mkfs.fat` on the resolved target,
then one `mkfs.vfat` on the same target if and only if `mkfs.fat` failed,
then one `mount` of that target — the mount is attempted even when both
formatting invocations failed. -/
theorem format_retry_then_mount (env : Env) (n : Nat) (kp ip dev : String)
    (h1 : resolvedLoop env = some dev) (hne : (dev == "") = false) :
    (createFat32Disk env n kp ip).1.filter isFormatOrMount =
      [Event.mkfsFat (partitionDev env dev)]
        ++ (if env.mkfsFatOk then [] else [Event.mkfsVfat (partitionDev env dev)])
        ++ [Event.mountDev (partitionDev env dev)] := by
  have hpre : (preTrace env n).filter isFormatOrMount = [] :=
    filter_eq_nil_of_all _ _
      (fun e he => (isPreEv_neutral e (preTrace_all_pre env n e he)).2.2.2.2.2.1)
  have hstage :
      ((runStaging (stagingPlan env kp ip) env.stagingExc).1).filter isFormatOrMount = [] :=
    filter_eq_nil_of_all _ _
      (fun e he => (isStageEv_neutral e (runStaging_stage env kp ip _ e he)).2.2.2)
  cases hm : env.mountOk
  · rw [createFat32Disk_mountFailed env n kp ip dev h1 hne hm]
    cases hf : env.mkfsFatOk <;>
      simp [hf, List.filter_append, hpre, List.filter_cons,
        isFormatOrMount, isMkfsFatEv, isMkfsVfatEv, isMountEv]
  · rw [createFat32Disk_mounted env n kp ip dev h1 hne hm]
    cases hf : env.mkfsFatOk <;>
      cases hr2 : (runStaging (stagingPlan env kp ip) env.stagingExc).2 <;>
        simp [hf, hr2, List.filter_append, hpre, hstage, List.filter_cons,
          isFormatOrMount, isMkfsFatEv, isMkfsVfatEv, isMountEv]

theorem format_retry_then_mount_witness :
    resolvedLoop envBase = some "/dev/loop0" ∧ (("/dev/loop0" : String) == "") = false ∧
    (createFat32Disk envBase 64 "bzImage" "init.bin").1.filter isFormatOrMount =
      [Event.mkfsFat (partitionDev envBase "/dev/loop0")]
        ++ (if envBase.mkfsFatOk then []
            else [Event.mkfsVfat (partitionDev envBase "/dev/loop0")])
        ++ [Event.mountDev (partitionDev envBase "/dev/loop0")] :=
  ⟨rfl, rfl, format_retry_then_mount envBase 64 "bzImage" "init.bin" "/dev/loop0" rfl rfl⟩

/-- C8: whenever the mount succeeds, `umount` is invoked exactly once,
whatever the staging outcome — including a staging step raising an
exception — because it sits in the `finally` guarding all staging steps. -/
theorem unmount_once_when_mounted (env : Env) (n : Nat) (kp ip dev : String)
    (h1 : resolvedLoop env = some dev) (hne : (dev == "") = false)
    (hm : env.mountOk = true) :
    countE isUnmountEv (createFat32Disk env n kp ip).1 = 1 := by
  have hpre : countE isUnmountEv (preTrace env n) = 0 :=
    countE_eq_zero _ _
      (fun e he => (isPreEv_neutral e (preTrace_all_pre env n e he)).2.2.1)
  have hstage : countE isUnmountEv (runStaging (stagingPlan env kp ip) env.stagingExc).1 = 0 :=
    countE_eq_zero _ _
      (fun e he => (isStageEv_neutral e (runStaging_stage env kp ip _ e he)).2.2.1)
  have hpre2 : (List.filter isUnmountEv (preTrace env n)).length = 0 := hpre
  have hstage2 :
      (List.filter isUnmountEv
        (runStaging (stagingPlan env kp ip) env.stagingExc).1).length = 0 := hstage
  rw [createFat32Disk_mounted env n kp ip dev h1 hne hm]
  cases hf : env.mkfsFatOk <;>
    cases hr2 : (runStaging (stagingPlan env kp ip) env.stagingExc).2 <;>
      simp [hf, hr2, countE_append, hpre, hstage, hpre2, hstage2, countE,
        List.filter_cons, isUnmountEv]

theorem unmount_once_when_mounted_witness :
    resolvedLoop envStagingRaises = some "/dev/loop0" ∧
    (("/dev/loop0" : String) == "") = false ∧ envStagingRaises.mountOk = true ∧
    countE isUnmountEv (createFat32Disk envStagingRaises 64 "bzImage" "init.bin").1 = 1 :=
  ⟨rfl, rfl, rfl,
    unmount_once_when_mounted envStagingRaises 64 "bzImage" "init.bin" "/dev/loop0"
      rfl rfl rfl⟩

end Ark

namespace Ark

/-- C3 (amended): when the mount succeeds, staging completes and the
`umount` invocation fails, the failure is ignored — the pipeline still
returns `True` and `main` exits 0 with the success summary, because the
return code of `umount` is discarded. -/
theorem unmount_failure_ignored (env : Env) (n : Nat) (kp ip dev : String)
    (h1 : resolvedLoop env = some dev) (hne : (dev == "") = false)
    (hm : env.mountOk = true) (hexc : env.stagingExc = none)
    (hu : env.umountOk = false) :
    (createFat32Disk env n kp ip).2 = some true ∧
    mainExitCode (createFat32Disk env n kp ip).2 = some 0 := by
  have hns : (runStaging (stagingPlan env kp ip) env.stagingExc).2 = false := by
    rw [hexc, runStaging_none_eq]
  rw [createFat32Disk_mounted env n kp ip dev h1 hne hm]
  simp [hns, mainExitCode]

theorem unmount_failure_ignored_witness :
    resolvedLoop envUmountFails = some "/dev/loop0" ∧
    (("/dev/loop0" : String) == "") = false ∧
    envUmountFails.mountOk = true ∧ envUmountFails.stagingExc = none ∧
    envUmountFails.umountOk = false ∧
    ((createFat32Disk envUmountFails 64 "bzImage" "init.bin").2 = some true ∧
      mainExitCode (createFat32Disk envUmountFails 64 "bzImage" "init.bin").2 = some 0) :=
  ⟨rfl, rfl, rfl, rfl, rfl,
    unmount_failure_ignored envUmountFails 64 "bzImage" "init.bin" "/dev/loop0"
      rfl rfl rfl rfl rfl⟩

/-- C9: on runs without a staging exception, the pipeline returns `False`
exactly when the loop-device name is falsy (no name, or an empty string),
and returns `True` — letting `main` exit 0 with the success summary —
exactly when a name was obtained, regardless of partition-table writing,
formatting or mount outcomes. -/
theorem success_iff_loop_obtained (env : Env) (n : Nat) (kp ip : String)
    (hexc : env.stagingExc = none) :
    ((createFat32Disk env n kp ip).2 = some false ↔
      loopFalsy (resolvedLoop env) = true) ∧
    ((createFat32Disk env n kp ip).2 = some true ↔
      loopFalsy (resolvedLoop env) = false) ∧
    (mainExitCode (createFat32Disk env n kp ip).2 = some 0 ↔
      loopFalsy (resolvedLoop env) = false) := by
  have hns : (runStaging (stagingPlan env kp ip) env.stagingExc).2 = false := by
    rw [hexc, runStaging_none_eq]
  rcases hr : resolvedLoop env with _ | dev
  · rw [createFat32Disk_falsy env n kp ip (by rw [hr]; rfl)]
    simp [loopFalsy, mainExitCode]
  · cases hdev : (dev == "")
    · cases hm : env.mountOk
      · rw [createFat32Disk_mountFailed env n kp ip dev hr hdev hm]
        simp [loopFalsy, hdev, mainExitCode]
      · rw [createFat32Disk_mounted env n kp ip dev hr hdev hm]
        simp [loopFalsy, hdev, hns, mainExitCode]
    · rw [createFat32Disk_falsy env n kp ip (by rw [hr]; simpa [loopFalsy] using hdev)]
      simp [loopFalsy, hdev, mainExitCode]

theorem success_iff_loop_obtained_witness :
    envBase.stagingExc = none ∧
    (((createFat32Disk envBase 64 "bzImage" "init.bin").2 = some false ↔
        loopFalsy (resolvedLoop envBase) = true) ∧
      ((createFat32Disk envBase 64 "bzImage" "init.bin").2 = some true ↔
        loopFalsy (resolvedLoop envBase) = false) ∧
      (mainExitCode (createFat32Disk envBase 64 "bzImage" "init.bin").2 = some 0 ↔
        loopFalsy (resolvedLoop envBase) = false)) :=
  ⟨rfl, success_iff_loop_obtained envBase 64 "bzImage" "init.bin" rfl⟩

/-- C7 (amended): on a mounted run without a staging exception, the `bin`
and `usr` directories are created before any file copy, and `boot/grub` is
created before the boot configuration file is written — but `boot/grub` is
only created after the init and kernel copies, so not all three canonical
directories precede the copies. -/
theorem bin_usr_first_and_grub_before_cfg (env : Env) (n : Nat) (kp ip dev : String)
    (h1 : resolvedLoop env = some dev) (hne : (dev == "") = false)
    (hm : env.mountOk = true) (hexc : env.stagingExc = none) :
    binUsrBeforeCopies (createFat32Disk env n kp ip).1 = true ∧
    grubBeforeCfg (createFat32Disk env n kp ip).1 = true := by
  have hpreC : ∀ e ∈ preTrace env n, (!(isCopyEv e)) = true := fun e he => by
    simp [(isPreEv_neutral e (preTrace_all_pre env n e he)).2.2.2.1]
  have hpreW : ∀ e ∈ preTrace env n, (!(isWriteCfgEv e)) = true := fun e he => by
    simp [(isPreEv_neutral e (preTrace_all_pre env n e he)).2.2.2.2.1]
  rw [createFat32Disk_mounted env n kp ip dev h1 hne hm, hexc, runStaging_none_eq]
  cases hmf : env.mkfsFatOk <;> cases hie : env.initExists <;> cases hke : env.kernelExists <;>
    · simp only [hmf, hie, hke, stagingPlan, binUsrBeforeCopies, grubBeforeCfg,
        Bool.and_eq_true, if_true, if_false, List.map_append, List.map_cons,
        List.map_nil, List.append_assoc, List.singleton_append, List.cons_append,
        List.nil_append, Bool.false_eq_true, Bool.true_eq_false, ite_true, ite_false]
      refine ⟨⟨?_, ?_⟩, ?_⟩ <;>
        [rw [takeWhile_append_all _ (preTrace env n) _ hpreC];
         rw [takeWhile_append_all _ (preTrace env n) _ hpreC];
         rw [takeWhile_append_all _ (preTrace env n) _ hpreW]] <;>
        simp [List.takeWhile_cons, List.any_cons, isCopyEv, isWriteCfgEv, isMkdirOf]

theorem bin_usr_first_and_grub_before_cfg_witness :
    resolvedLoop envBase = some "/dev/loop0" ∧
    (("/dev/loop0" : String) == "") = false ∧
    envBase.mountOk = true ∧ envBase.stagingExc = none ∧
    (binUsrBeforeCopies (createFat32Disk envBase 64 "bzImage" "init.bin").1 = true ∧
      grubBeforeCfg (createFat32Disk envBase 64 "bzImage" "init.bin").1 = true) :=
  ⟨rfl, rfl, rfl, rfl,
    bin_usr_first_and_grub_before_cfg envBase 64 "bzImage" "init.bin" "/dev/loop0"
      rfl rfl rfl rfl⟩

end Ark

namespace ArkZip

lemma splitColon1_eq_none : ∀ s : Name, hasColon s = false → splitColon1 s = none
  | [], _ => rfl
  | c :: cs, h => by
    simp only [hasColon, List.any_cons, Bool.or_eq_false_iff] at h
    obtain ⟨h1, h2⟩ := h
    have hcne : ¬ c = ':' := by simpa using h1
    have h2' : hasColon cs = false := by simpa [hasColon] using h2
    simp [splitColon1, hcne, splitColon1_eq_none cs h2']

lemma writeExtrasLoop_eq (fs : Name → Option (List Nat)) :
    ∀ (extras : List Name) (z : List Member),
      writeExtrasLoop fs z extras =
        (z ++ (resolvedExtras fs extras).1, (resolvedExtras fs extras).2)
  | [], z => by simp [writeExtrasLoop, resolvedExtras]
  | e :: rest, z => by
    cases hfs : fs (resolveExtra e).1 with
    | none =>
      simp only [writeExtrasLoop, resolvedExtras, hfs]
      exact writeExtrasLoop_eq fs rest z
    | some c =>
      cases hn : normalizeArc (resolveExtra e).2 with
      | none =>
        simp only [writeExtrasLoop, resolvedExtras, zipWrite, hfs, hn]
        simp
      | some nm =>
        have ih := writeExtrasLoop_eq fs rest (z ++ [(nm, c)])
        simp only [writeExtrasLoop, resolvedExtras, zipWrite, hfs, hn]
        rw [ih]
        simp

lemma splitSep_no_sep : ∀ b : Name, ('/' : Char) ∉ b → splitSep b = [b]
  | [], _ => rfl
  | c :: cs, h => by
    have hc : ¬ c = '/' := fun hq => h (by simp [hq])
    have hcs : ('/' : Char) ∉ cs := fun hq => h (List.mem_cons_of_mem c hq)
    simp [splitSep, hc, splitSep_no_sep cs hcs]

lemma normalizeArc_plain (b : Name) (hslash : ('/' : Char) ∉ b) (h0 : b ≠ [])
    (h1 : b ≠ dotName) (h2 : b ≠ dotdotName) : normalizeArc b = some b := by
  have hsplit : splitSep b = [b] := splitSep_no_sep b hslash
  have hcomps : normComps (isAbsName b) [] [b] = [b] := by
    simp [normComps, h0, h1, h2]
  simp [normalizeArc, hsplit, hcomps, intercalateSlash]

lemma basename_aux_no_slash :
    ∀ (s : Name) (acc : Name), ('/' : Char) ∉ acc →
      ('/' : Char) ∉ s.foldl (fun acc c => if c = '/' then [] else acc ++ [c]) acc
  | [], _, h => h
  | c :: cs, acc, h => by
    rw [List.foldl_cons]
    by_cases hc : c = '/'
    · refine basename_aux_no_slash cs _ ?_
      simp [hc]
    · refine basename_aux_no_slash cs _ ?_
      intro hmem
      simp only [if_neg hc] at hmem
      rcases List.mem_append.mp hmem with ha | hb
      · exact h ha
      · exact hc (List.mem_singleton.mp hb).symm

lemma basename_no_slash (s : Name) : ('/' : Char) ∉ basename s :=
  basename_aux_no_slash s [] (by simp)

lemma resolvedExtras_mem (fs : Name → Option (List Nat)) :
    ∀ (extras : List Name) (p : Member), p ∈ (resolvedExtras fs extras).1 →
      ∃ e ∈ extras, ∃ ce, fs (resolveExtra e).1 = some ce ∧
        normalizeArc (resolveExtra e).2 = some p.1 ∧ p.2 = ce
  | [], p => by intro hp; simp [resolvedExtras] at hp
  | e :: rest, p => by
    intro hp
    cases hfs : fs (resolveExtra e).1 with
    | none =>
      simp only [resolvedExtras, hfs] at hp
      obtain ⟨e2, he2, hrest⟩ := resolvedExtras_mem fs rest p hp
      exact ⟨e2, List.mem_cons_of_mem e he2, hrest⟩
    | some c =>
      cases hn : normalizeArc (resolveExtra e).2 with
      | none =>
        simp only [resolvedExtras, hfs, hn] at hp
        simp at hp
      | some nm =>
        simp only [resolvedExtras, hfs, hn] at hp
        rcases List.mem_cons.mp hp with rfl | hp2
        · exact ⟨e, List.mem_cons_self e rest, c, hfs, hn, rfl⟩
        · obtain ⟨e2, he2, hrest⟩ := resolvedExtras_mem fs rest p hp2
          exact ⟨e2, List.mem_cons_of_mem e he2, hrest⟩

lemma resolvedExtras_mem_of (fs : Name → Option (List Nat)) :
    ∀ (extras : List Name),
      (∀ e2 ∈ extras, normalizeArc (resolveExtra e2).2 ≠ none) →
      ∀ e ∈ extras, ∀ (ce : List Nat) (nm : Name),
        fs (resolveExtra e).1 = some ce → normalizeArc (resolveExtra e).2 = some nm →
        (nm, ce) ∈ (resolvedExtras fs extras).1
  | [], _, e, he => by simp at he
  | a :: rest, hsafe, e, he => by
    intro ce nm hfs hn
    have hsafe2 : ∀ e2 ∈ rest, normalizeArc (resolveExtra e2).2 ≠ none :=
      fun e2 he2 => hsafe e2 (List.mem_cons_of_mem a he2)
    rcases List.mem_cons.mp he with rfl | he2
    · simp only [resolvedExtras, hfs, hn]
      exact List.mem_cons_self _ _
    · cases hfs2 : fs (resolveExtra a).1 with
      | none =>
        simp only [resolvedExtras, hfs2]
        exact resolvedExtras_mem_of fs rest hsafe2 e he2 ce nm hfs hn
      | some c2 =>
        cases hn2 : normalizeArc (resolveExtra a).2 with
        | none => exact absurd hn2 (hsafe a (List.mem_cons_self a rest))
        | some nm2 =>
          simp only [resolvedExtras, hfs2, hn2]
          exact List.mem_cons_of_mem _
            (resolvedExtras_mem_of fs rest hsafe2 e he2 ce nm hfs hn)

lemma resolvedExtras_no_crash (fs : Name → Option (List Nat)) :
    ∀ extras : List Name,
      (∀ e ∈ extras, normalizeArc (resolveExtra e).2 ≠ none) →
      (resolvedExtras fs extras).2 = false
  | [], _ => rfl
  | e :: rest, hsafe => by
    have hsafe2 : ∀ e2 ∈ rest, normalizeArc (resolveExtra e2).2 ≠ none :=
      fun e2 he2 => hsafe e2 (List.mem_cons_of_mem e he2)
    cases hfs : fs (resolveExtra e).1 with
    | none =>
      simp only [resolvedExtras, hfs]
      exact resolvedExtras_no_crash fs rest hsafe2
    | some c =>
      cases hn : normalizeArc (resolveExtra e).2 with
      | none => exact absurd hn (hsafe e (List.mem_cons_self e rest))
      | some nm =>
        simp only [resolvedExtras, hfs, hn]
        exact resolvedExtras_no_crash fs rest hsafe2

/-- C6: counterexample to the claim as stated for every extras list: the
extra mapping `x:./init` resolves to the archive path `./init`, which
`zf.write` normalizes to `init`, so the produced archive contains two
members literally named `init`, not exactly one. -/
theorem duplicate_init_member :
    buildZip fsDemo ['i'] [['x', ':', '.', '/', 'i', 'n', 'i', 't']] =
      some ([(initName, [1, 2]), (initName, [7])], false) ∧
    countName initName [(initName, [1, 2]), (initName, [7])] = 2 := by
  decide

/-- C6 (amended): when the init binary exists, no extra mapping's archive
path normalizes to `init`, and none normalizes to separators only (which
would make the write raise), the completed archive contains exactly one
member named `init`, that member's content (hence its size) is
byte-identical to the init binary, and an extra given without a `:`
destination whose base name is an ordinary component is stored under
exactly that base name. -/
theorem zip_unique_init_when_extras_avoid_init (fs : Name → Option (List Nat))
    (initBin : Name) (c : List Nat) (extras : List Name)
    (hinit : fs initBin = some c)
    (hext : ∀ e ∈ extras, normalizeArc (resolveExtra e).2 ≠ some initName)
    (hsafe : ∀ e ∈ extras, normalizeArc (resolveExtra e).2 ≠ none) :
    ∃ z, buildZip fs initBin extras = some (z, false) ∧
      countName initName z = 1 ∧
      (∀ p ∈ z, p.1 = initName → p.2 = c) ∧
      (∀ e ∈ extras, hasColon e = false → basename e ≠ [] → basename e ≠ dotName →
        basename e ≠ dotdotName → ∀ ce, fs e = some ce → (basename e, ce) ∈ z) := by
  have hni : normalizeArc initName = some initName := by decide
  have hb : buildZip fs initBin extras =
      some ((initName, c) :: (resolvedExtras fs extras).1,
        (resolvedExtras fs extras).2) := by
    simp [buildZip, hinit, zipWrite, hni, writeExtrasLoop_eq]
  have hcrash := resolvedExtras_no_crash fs extras hsafe
  have hr : ∀ p ∈ (resolvedExtras fs extras).1, (p.1 == initName) = false := by
    intro p hp
    obtain ⟨e, he, ce, hfs, hn, hpc⟩ := resolvedExtras_mem fs extras p hp
    have hne : p.1 ≠ initName := fun hq => hext e he (by rw [hn, hq])
    simpa [beq_eq_false_iff_ne] using hne
  refine ⟨(initName, c) :: (resolvedExtras fs extras).1, by rw [hb, hcrash], ?_, ?_, ?_⟩
  · have hnil :=
      Ark.filter_eq_nil_of_all (fun p => p.1 == initName) (resolvedExtras fs extras).1 hr
    simp [countName, List.filter_cons, hnil]
  · intro p hp h1
    rcases List.mem_cons.mp hp with rfl | hp2
    · rfl
    · exfalso
      have h2 := hr p hp2
      rw [h1] at h2
      simp at h2
  · intro e he hcol hb0 hb1 hb2 ce hce
    have hre : resolveExtra e = (e, basename e) := by
      simp [resolveExtra, splitColon1_eq_none e hcol]
    have hnb : normalizeArc (basename e) = some (basename e) :=
      normalizeArc_plain (basename e) (basename_no_slash e) hb0 hb1 hb2
    apply List.mem_cons_of_mem
    exact resolvedExtras_mem_of fs extras hsafe e he ce (basename e)
      (by rw [hre]; exact hce) (by rw [hre]; exact hnb)

theorem zip_unique_init_when_extras_avoid_init_witness :
    fsDemo ['i'] = some [1, 2] ∧
    (∀ e ∈ [['d', '/', 'x'], ['y', ':', 'b']],
      normalizeArc (resolveExtra e).2 ≠ some initName) ∧
    (∀ e ∈ [['d', '/', 'x'], ['y', ':', 'b']],
      normalizeArc (resolveExtra e).2 ≠ none) ∧
    (∃ z, buildZip fsDemo ['i'] [['d', '/', 'x'], ['y', ':', 'b']] = some (z, false) ∧
      countName initName z = 1 ∧
      (∀ p ∈ z, p.1 = initName → p.2 = [1, 2]) ∧
      (∀ e ∈ [['d', '/', 'x'], ['y', ':', 'b']], hasColon e = false →
        basename e ≠ [] → basename e ≠ dotName → basename e ≠ dotdotName →
        ∀ ce, fsDemo e = some ce → (basename e, ce) ∈ z)) :=
  ⟨by decide, by decide, by decide,
    zip_unique_init_when_extras_avoid_init fsDemo ['i'] [1, 2]
      [['d', '/', 'x'], ['y', ':', 'b']] (by decide) (by decide) (by decide)⟩

/-- C10: the member named `init` is always the first entry of the produced
archive, and the remaining entries are exactly the extras in argument
order, each under its resolved, normalized archive path, missing host
files dropped, truncated at a crashing write. -/
theorem zip_init_first_extras_in_order (fs : Name → Option (List Nat))
    (initBin : Name) (c : List Nat) (extras : List Name)
    (hinit : fs initBin = some c) :
    buildZip fs initBin extras =
      some ((initName, c) :: (resolvedExtras fs extras).1,
        (resolvedExtras fs extras).2) ∧
    ∀ z b, buildZip fs initBin extras = some (z, b) →
      z.head? = some (initName, c) := by
  have hni : normalizeArc initName = some initName := by decide
  have hb : buildZip fs initBin extras =
      some ((initName, c) :: (resolvedExtras fs extras).1,
        (resolvedExtras fs extras).2) := by
    simp [buildZip, hinit, zipWrite, hni, writeExtrasLoop_eq]
  refine ⟨hb, fun z b hz => ?_⟩
  rw [hb] at hz
  have h2 := Option.some_inj.mp hz
  have h3 : (initName, c) :: (resolvedExtras fs extras).1 = z := congrArg Prod.fst h2
  rw [← h3]
  rfl

theorem zip_init_first_extras_in_order_witness :
    fsDemo ['i'] = some [1, 2] ∧
    (buildZip fsDemo ['i'] [['x'], ['y']] =
        some ((initName, [1, 2]) :: (resolvedExtras fsDemo [['x'], ['y']]).1,
          (resolvedExtras fsDemo [['x'], ['y']]).2) ∧
      ∀ z b, buildZip fsDemo ['i'] [['x'], ['y']] = some (z, b) →
        z.head? = some (initName, [1, 2])) :=
  ⟨by decide,
    zip_init_first_extras_in_order fsDemo ['i'] [1, 2] [['x'], ['y']] (by decide)⟩

end ArkZip
